import Mathlib

/-!
# Causal stack-trace stitching engine: a shallow embedding

This file embeds the causal-trace core of `src/trace.js` and proves the
specified properties of its stitching algorithm, its store bookkeeping,
its synchronous-scope tracker, its frame equality test, and its
frame-handle wrapper.

Modelling conventions:
* JavaScript field values that matter to the engine (call-site file names,
  line and column numbers) are modelled by `JSVal`, which keeps `null` and
  `undefined` distinct because the source distinguishes them: the weak
  wrapper returns `undefined` for a reclaimed descriptor while the V8
  accessors return `null` for an unavailable field, and `equalCallSite`
  tests only `null`.
* The `Map` of traces is an association list with JavaScript `Map`
  semantics (first matching key wins; `set` replaces, `delete` removes).
* The `Set` of recent inits is a duplicate-free list.
* A JavaScript `TypeError` (reading `.length` of `undefined`) is modelled
  by returning `none` from the faulting operation.
* The frame source (`chain.callSite` from the external stack-chain
  package) is not part of the repository and is modelled from the spec.
-/

/-- A JavaScript value as observed through a call-site accessor:
`undefined`, `null`, a string, or a number. -/
inductive JSVal where
  | undef : JSVal
  | null : JSVal
  | str : String → JSVal
  | num : Int → JSVal
  deriving DecidableEq, Repr

/-- One captured stack frame, exposing the three accessors that the
engine consumes (`getFileName`, `getLineNumber`, `getColumnNumber`). -/
structure CallSite where
  getFileName : JSVal
  getLineNumber : JSVal
  getColumnNumber : JSVal
  deriving DecidableEq, Repr

/-- Default call site used only to totalise list indexing; the loops in
the source never index out of bounds (proved where relevant). -/
def dummyCallSite : CallSite := ⟨JSVal.undef, JSVal.undef, JSVal.undef⟩

/-- A field is absent when the handle reports the reclaimed-descriptor
sentinel `undefined` or the unavailable-field value `null`. -/
def isAbsentVal : JSVal → Bool
  | JSVal.undef => true
  | JSVal.null => true
  | _ => false

/-- Embedding of `equalCallSite(a, b)` from `src/trace.js`: reject when
one of `a`'s three fields is `null`, otherwise compare the three field
pairs with strict equality. -/
def equalCallSite (a b : CallSite) : Bool :=
  let aFile := a.getFileName
  let aLine := a.getLineNumber
  let aColumn := a.getColumnNumber
  if aFile == JSVal.null || aLine == JSVal.null || aColumn == JSVal.null then
    false
  else
    aFile == b.getFileName && aLine == b.getLineNumber && aColumn == b.getColumnNumber

/-! ## The weak frame-handle wrapper (`WeakRef` / `WeakProxy`) -/

/-- Model of the source's `WeakRef` class: the wrapper holds one WeakMap
whose single entry is keyed by the wrapper itself and stores the wrapped
value. `weakMapEntry = none` models the entry having been collected. -/
structure WeakRefM (V : Type) where
  weakMapEntry : Option V
  deriving DecidableEq, Repr

/-- `new WeakRef(value)`: the WeakMap is created holding `[[this, value]]`. -/
def WeakRefM.make {V : Type} (value : V) : WeakRefM V := ⟨some value⟩

/-- `WeakRef.prototype.deref`: `this._weakMap.get(this)`. -/
def WeakRefM.deref {V : Type} (r : WeakRefM V) : Option V := r.weakMapEntry

/-- One garbage-collection step over the wrapper's WeakMap: a WeakMap
entry may be dropped only when its key is unreachable. The entry's key is
the wrapper itself, so `keyReachable` records whether the wrapper is
still reachable. -/
def gcStep {V : Type} (keyReachable : Bool) (r r' : WeakRefM V) : Prop :=
  r' = r ∨ (keyReachable = false ∧ r'.weakMapEntry = none)

/-- Any finite number of garbage-collection steps. -/
def gcReachable {V : Type} (keyReachable : Bool) : WeakRefM V → WeakRefM V → Prop :=
  Relation.ReflTransGen (gcStep keyReachable)

/-- The `get` trap of the source's `WeakProxy`: dereference the target;
if the value is gone return `undefined`, otherwise read the property on
the live descriptor.  (Call-site descriptors are objects, hence truthy,
so `!object` coincides with the dereference returning nothing; the
function-binding branch returns the same property value bound to the
live receiver and is observationally the property read.) -/
def weakProxyGet (r : WeakRefM CallSite) (prop : CallSite → JSVal) : JSVal :=
  match r.deref with
  | none => JSVal.undef
  | some object => prop object

/-- `cloneCallSite` wraps a raw descriptor in a `WeakProxy`.  At the
level of the three accessors a live handle forwards the descriptor
unchanged (see the wrapper theorems below), so the clone is the
identity on the modelled fields. -/
def cloneCallSite : CallSite → CallSite := id

/-! ## Frame capture (`getCallSites`) -/

/-- Modelled from the spec: the frame source `chain.callSite` (the
external stack-chain package, not part of this repository) returns the
frames of the current synchronous call chain, innermost first, capped at
the maximum-frame-depth setting in force during the capture, and then
excludes the `skip` innermost frames (`slice: skip`). -/
def chainCallSite (effectiveLimit skip : Nat) (stack : List CallSite) : List CallSite :=
  (stack.take effectiveLimit).drop skip

/-- Result of one `getCallSites` call: the limit in force during the
capture, the returned frames, and the limit left in place afterwards. -/
structure CaptureResult where
  raisedLimit : Nat
  frames : List CallSite
  finalLimit : Nat
  deriving DecidableEq, Repr

/-- Embedding of `getCallSites(skip)` from `src/trace.js`: save
`Error.stackTraceLimit`, raise it by `skip`, capture through the frame
source with `slice: skip`, restore the limit, and clone every frame.
`limit` is the ambient `Error.stackTraceLimit`; `stack` is the current
raw synchronous call stack, innermost first. -/
def getCallSites (limit skip : Nat) (stack : List CallSite) : CaptureResult :=
  let raised := limit + skip
  { raisedLimit := raised
    frames := (chainCallSite raised skip stack).map cloneCallSite
    finalLimit := limit }

/-! ## Engine state -/

/-- The process-wide mutable state of the engine: the recent-inits set
(`executionScopeInits`), the dispatch nesting depth
(`executionScopeDepth`, an integer because the source decrements without
a guard), and the causal trace store (`traces`). -/
structure TraceState where
  executionScopeInits : List Nat
  executionScopeDepth : Int
  traces : List (Nat × List CallSite)
  deriving DecidableEq, Repr

/-- The state at module load: empty set, depth `0`, empty map. -/
def initialState : TraceState := ⟨[], 0, []⟩

/-- `Map.prototype.get` on the trace store: first entry with the key. -/
def mapGet : List (Nat × List CallSite) → Nat → Option (List CallSite)
  | [], _ => none
  | (k, v) :: rest, key => if k == key then some v else mapGet rest key

/-- `Map.prototype.set`: replace any entry for the key with the new one. -/
def mapSet (m : List (Nat × List CallSite)) (key : Nat) (v : List CallSite) :
    List (Nat × List CallSite) :=
  (key, v) :: m.filter (fun p => p.1 != key)

/-- `Map.prototype.delete`: drop the entry for the key, if any. -/
def mapDelete (m : List (Nat × List CallSite)) (key : Nat) : List (Nat × List CallSite) :=
  m.filter (fun p => p.1 != key)

/-- `Set.prototype.add`: insert the element if it is not present. -/
def setAdd (s : List Nat) (x : Nat) : List Nat :=
  if s.contains x then s else s ++ [x]

/-! ## The stitching algorithm (`asyncInit`) and the other hooks -/

/-- The deduplication loop of `asyncInit`, indices mirroring the source:
`i` starts at `parentTrace.length` and the loop runs
`while (i-- && trace.length > 1)`, popping the last captured frame
whenever it equals `parentTrace[i]`. -/
def dedupLoop (parentTrace : List CallSite) : Nat → List CallSite → List CallSite
  | 0, trace => trace
  | i + 1, trace =>
    if trace.length > 1 then
      if equalCallSite (parentTrace.getD i dummyCallSite) (trace.getLastD dummyCallSite) then
        dedupLoop parentTrace i trace.dropLast
      else
        dedupLoop parentTrace i trace
    else trace

/-- The whole dedup walk of `asyncInit`, started at the end of the
parent trace. -/
def asyncInitDedup (parentTrace trace : List CallSite) : List CallSite :=
  dedupLoop parentTrace parentTrace.length trace

/-- The walk as the specification words it (the refinement target, built
from the spec, not from the source): proceed backward through the parent
frames and keep removing the captured sequence's last frame *while* more
than one frame remains and the current parent frame equals it; stop at
the first mismatch. -/
def specDedupWalkFrom : List CallSite → List CallSite → List CallSite
  | [], trace => trace
  | p :: ps, trace =>
    if trace.length > 1 && equalCallSite p (trace.getLastD dummyCallSite) then
      specDedupWalkFrom ps trace.dropLast
    else trace

/-- The spec's walk, started from the end of the parent sequence. -/
def specDedupWalk (parentTrace trace : List CallSite) : List CallSite :=
  specDedupWalkFrom parentTrace.reverse trace

/-- Structural restatement of the source's walk used by the amended
dedup claim: fold backward over *every* parent frame (the mismatch case
moves on instead of stopping), popping the captured sequence's last
frame on a match while more than one frame remains. The argument list is
the parent sequence already reversed. -/
def dedupBackward : List CallSite → List CallSite → List CallSite
  | [], trace => trace
  | p :: ps, trace =>
    if trace.length > 1 then
      if equalCallSite p (trace.getLastD dummyCallSite) then
        dedupBackward ps trace.dropLast
      else
        dedupBackward ps trace
    else trace

/-- The tail of `asyncInit` after the dedup walk: append the trigger's
stored trace unless the trigger is the reserved root value `0` (a
missing store entry contributes nothing, as `push.apply` with
`undefined` pushes no arguments), truncate to `Error.stackTraceLimit`,
store under `asyncId`, and record the init in the recent-inits set. -/
def asyncInitStore (limit : Nat) (s : TraceState) (asyncId triggerAsyncId : Nat)
    (trace : List CallSite) : TraceState :=
  let trace2 := if triggerAsyncId != 0 then
      trace ++ (mapGet s.traces triggerAsyncId).getD []
    else trace
  { s with
    traces := mapSet s.traces asyncId (trace2.take limit)
    executionScopeInits := setAdd s.executionScopeInits asyncId }

/-- Embedding of `asyncInit(asyncId, type, triggerAsyncId)`: capture the
current frames with `getCallSites(2)`, run the dedup walk when the
trigger is a recent init, then concatenate, truncate and store. When the
trigger is a recent init but has no store entry, the source reads
`.length` of `undefined` and throws a `TypeError`, modelled by `none`. -/
def asyncInit (limit : Nat) (s : TraceState) (asyncId : Nat) (ty : String)
    (triggerAsyncId : Nat) (stack : List CallSite) : Option TraceState :=
  let _ := ty
  let trace := (getCallSites limit 2 stack).frames
  if s.executionScopeInits.contains triggerAsyncId then
    match mapGet s.traces triggerAsyncId with
    | none => none
    | some parentTrace =>
      some (asyncInitStore limit s asyncId triggerAsyncId (asyncInitDedup parentTrace trace))
  else
    some (asyncInitStore limit s asyncId triggerAsyncId trace)

/-- Embedding of `asyncBefore`: clear the recent-inits set when entering
at depth `0`, then increment the depth. -/
def asyncBefore (s : TraceState) : TraceState :=
  { s with
    executionScopeInits := if s.executionScopeDepth == 0 then [] else s.executionScopeInits
    executionScopeDepth := s.executionScopeDepth + 1 }

/-- Embedding of `asyncAfter`: decrement the depth. -/
def asyncAfter (s : TraceState) : TraceState :=
  { s with executionScopeDepth := s.executionScopeDepth - 1 }

/-- Embedding of `asyncDestroy`: remove the identifier's store entry. -/
def asyncDestroy (s : TraceState) (asyncId : Nat) : TraceState :=
  { s with traces := mapDelete s.traces asyncId }

/-- The trace composer, the contribution of the `chain.extend.attach`
handler: the stored trace of the currently executing identifier, or the
empty sequence when none is stored (`push.apply` with `undefined`
appends nothing). -/
def compose (s : TraceState) (id : Nat) : List CallSite :=
  (mapGet s.traces id).getD []

/-- The `chain.extend.attach` handler itself: append the composed trace
to the synchronously gathered frames. -/
def chainExtend (s : TraceState) (executionAsyncId : Nat) (frames : List CallSite) :
    List CallSite :=
  frames ++ compose s executionAsyncId

/-! ## Lifecycle events and runs -/

/-- One lifecycle event delivered by the event source. A `scheduled`
event carries the raw synchronous call stack in force at scheduling
time, from which `asyncInit` captures its frames. -/
inductive Event where
  | scheduled (asyncId : Nat) (ty : String) (triggerAsyncId : Nat) (stack : List CallSite)
  | dispatchEnter
  | dispatchExit
  | destroyed (asyncId : Nat)
  deriving DecidableEq, Repr

/-- One step of the engine. Only `scheduled` can fault. -/
def step (limit : Nat) (s : TraceState) : Event → Option TraceState
  | Event.scheduled id ty trigger stack => asyncInit limit s id ty trigger stack
  | Event.dispatchEnter => some (asyncBefore s)
  | Event.dispatchExit => some (asyncAfter s)
  | Event.destroyed id => some (asyncDestroy s id)

/-- Run a list of events from a state; a fault aborts the run. -/
def run (limit : Nat) (s : TraceState) : List Event → Option TraceState
  | [] => some s
  | e :: es =>
    match step limit s e with
    | none => none
    | some s' => run limit s' es

/-- Every `scheduled` event uses a non-reserved identifier: the reserved
root value `0` never names an operation. -/
def schedIdsNonzero : List Event → Bool
  | [] => true
  | Event.scheduled id _ _ _ :: es => id != 0 && schedIdsNonzero es
  | _ :: es => schedIdsNonzero es

/-- Every sequence stored in the causal trace store respects the depth
limit. -/
def storeBounded (limit : Nat) (s : TraceState) : Prop :=
  ∀ id seq, mapGet s.traces id = some seq → seq.length ≤ limit

/-! ## Concrete call sites and states used in closed statements -/

/-- Frame of `a.js:1:1`. -/
def csP0 : CallSite := ⟨JSVal.str "a.js", JSVal.num 1, JSVal.num 1⟩

/-- Frame of `a.js:2:1`. -/
def csP1 : CallSite := ⟨JSVal.str "a.js", JSVal.num 2, JSVal.num 1⟩

/-- Frame of `b.js:1:1`. -/
def csT0 : CallSite := ⟨JSVal.str "b.js", JSVal.num 1, JSVal.num 1⟩

/-- Frame of `b.js:2:1`. -/
def csT1 : CallSite := ⟨JSVal.str "b.js", JSVal.num 2, JSVal.num 1⟩

/-- Frame of `a.js:1:1` again: positionally equal to `csP0`. -/
def csT2 : CallSite := ⟨JSVal.str "a.js", JSVal.num 1, JSVal.num 1⟩

/-- An instrumentation frame, skipped by the capture. -/
def csD : CallSite := ⟨JSVal.str "internal.js", JSVal.num 0, JSVal.num 0⟩

/-- A handle all of whose accessors report the reclaimed-descriptor
sentinel. -/
def absentCS : CallSite := ⟨JSVal.undef, JSVal.undef, JSVal.undef⟩

/-- State in which operation `1` is a recent init whose stored trace is
`[csP0, csP1]`. -/
def c1State : TraceState := ⟨[1], 0, [(1, [csP0, csP1])]⟩

/-- Synchronous stack at the scheduling of operation `2`: two
instrumentation frames, then `csT0, csT1, csT2`, where only the last
frame `csT2` duplicates a parent frame — and it duplicates `csP0`, not
the parent's *last* frame `csP1`. -/
def c1Stack : List CallSite := [csD, csD, csT0, csT1, csT2]

/-- Event list scheduling `1`, destroying it, and then scheduling `2`
with the destroyed `1` as trigger inside the same outermost dispatch. -/
def c2Events : List Event :=
  [Event.scheduled 1 "TIMER" 0 [], Event.destroyed 1,
   Event.scheduled 2 "PROMISE" 1 []]

/-- State holding a stored trace for operation `1` that is no longer a
recent init. -/
def c4State : TraceState := ⟨[], 0, [(1, [csP0])]⟩

/-! ## Helper lemmas on the map, the set, and the dedup walk -/

theorem mapGet_filter_ne (m : List (Nat × List CallSite)) (k key : Nat) (h : key ≠ k) :
    mapGet (m.filter (fun p => p.1 != k)) key = mapGet m key := by
  induction m with
  | nil => rfl
  | cons hd tl ih =>
    obtain ⟨a, v⟩ := hd
    by_cases ha : a = k
    · subst ha
      simp only [List.filter_cons, bne_self_eq_false, mapGet]
      have : (a == key) = false := by
        simp only [beq_eq_false_iff_ne, ne_eq]
        exact fun hak => h hak.symm
      simp [this, ih]
    · have : (a != k) = true := by simpa using ha
      simp only [List.filter_cons, this, mapGet]
      by_cases hak : a = key
      · simp [hak]
      · have h1 : (a == key) = false := by simpa using hak
        simp [h1, ih]

theorem mapGet_filter_self (m : List (Nat × List CallSite)) (k : Nat) :
    mapGet (m.filter (fun p => p.1 != k)) k = none := by
  induction m with
  | nil => rfl
  | cons hd tl ih =>
    obtain ⟨a, v⟩ := hd
    by_cases ha : a = k
    · subst ha
      simp [List.filter_cons, ih]
    · have : (a != k) = true := by simpa using ha
      have h1 : (a == k) = false := by simpa using ha
      simp [List.filter_cons, this, mapGet, h1, ih]

theorem mapGet_mapSet (m : List (Nat × List CallSite)) (k : Nat) (v : List CallSite)
    (key : Nat) :
    mapGet (mapSet m k v) key = if k = key then some v else mapGet m key := by
  unfold mapSet
  by_cases h : k = key
  · simp [mapGet, h]
  · have h1 : (k == key) = false := by simpa using h
    simp [mapGet, h1, h, mapGet_filter_ne m k key (fun hk => h hk.symm)]

theorem mapGet_mapDelete (m : List (Nat × List CallSite)) (k key : Nat) :
    mapGet (mapDelete m k) key = if k = key then none else mapGet m key := by
  unfold mapDelete
  by_cases h : k = key
  · subst h
    simp [mapGet_filter_self]
  · simp [h, mapGet_filter_ne m k key (fun hk => h hk.symm)]

theorem mapGet_none_keys (m : List (Nat × List CallSite)) (k : Nat)
    (h : mapGet m k = none) : ∀ p ∈ m, (p.1 != k) = true := by
  induction m with
  | nil => intro p hp; cases hp
  | cons hd tl ih =>
    obtain ⟨a, v⟩ := hd
    have hak : (a == k) = false := by
      by_contra hc
      have : (a == k) = true := by simpa using hc
      simp [mapGet, this] at h
    intro p hp
    rcases List.mem_cons.mp hp with hp | hp
    · subst hp; simpa using hak
    · exact ih (by simpa [mapGet, hak] using h) p hp

theorem mapDelete_of_mapGet_none (m : List (Nat × List CallSite)) (k : Nat)
    (h : mapGet m k = none) : mapDelete m k = m :=
  List.filter_eq_self.mpr (mapGet_none_keys m k h)

theorem setAdd_mem (s : List Nat) (x y : Nat) (h : x ∈ s) : x ∈ setAdd s y := by
  unfold setAdd
  split
  · exact h
  · exact List.mem_append_left _ h

theorem setAdd_contains_of_ne (s : List Nat) (x y : Nat) (h : x ≠ y) :
    (setAdd s x).contains y = s.contains y := by
  unfold setAdd
  split
  · rfl
  · have hyx : (y == x) = false := by simpa using fun hk => h hk.symm
    simp only [List.contains] at *
    simp [hyx]
    intro hk
    exact absurd hk.symm h

theorem dedupLoop_ne_nil (parentTrace : List CallSite) :
    ∀ i (trace : List CallSite), trace ≠ [] → dedupLoop parentTrace i trace ≠ [] := by
  intro i
  induction i with
  | zero => intro trace h; simpa [dedupLoop] using h
  | succ i ih =>
    intro trace h
    unfold dedupLoop
    by_cases hl : trace.length > 1
    · simp only [hl, if_true]
      split
      · apply ih
        have : trace.dropLast.length = trace.length - 1 := List.length_dropLast trace
        intro hc
        rw [hc] at this
        simp at this
        omega
      · exact ih trace h
    · simp [hl, h]

theorem dedupLoop_eq_dedupBackward (parentTrace : List CallSite) :
    ∀ i, i ≤ parentTrace.length → ∀ trace : List CallSite,
      dedupLoop parentTrace i trace = dedupBackward ((parentTrace.take i).reverse) trace := by
  intro i
  induction i with
  | zero => intro _ trace; rfl
  | succ i ih =>
    intro hi trace
    have hilt : i < parentTrace.length := Nat.lt_of_succ_le hi
    have htake : (parentTrace.take (i + 1)).reverse
        = parentTrace[i] :: (parentTrace.take i).reverse := by
      rw [List.take_succ]
      simp [List.getElem?_eq_getElem hilt]
    have hgetD : parentTrace.getD i dummyCallSite = parentTrace[i] := by
      simp [List.getD_eq_getElem?_getD, List.getElem?_eq_getElem hilt]
    rw [htake]
    unfold dedupLoop dedupBackward
    rw [hgetD]
    by_cases hl : trace.length > 1
    · simp only [hl, if_true]
      split
      · exact ih (Nat.le_of_lt hilt) trace.dropLast
      · exact ih (Nat.le_of_lt hilt) trace
    · simp [hl]

theorem getCallSites_frames (limit skip : Nat) (stack : List CallSite) :
    (getCallSites limit skip stack).frames = (stack.drop skip).take limit := by
  simp only [getCallSites, chainCallSite, cloneCallSite, List.map_id]
  rw [Nat.add_comm limit skip]
  exact (List.take_drop skip limit stack).symm

theorem asyncInit_shape (limit : Nat) (s : TraceState) (asyncId : Nat) (ty : String)
    (triggerAsyncId : Nat) (stack : List CallSite) (s' : TraceState)
    (h : asyncInit limit s asyncId ty triggerAsyncId stack = some s') :
    ∃ t : List CallSite, s'.traces = mapSet s.traces asyncId (t.take limit) ∧
      s'.executionScopeInits = setAdd s.executionScopeInits asyncId ∧
      s'.executionScopeDepth = s.executionScopeDepth := by
  unfold asyncInit at h
  by_cases hc : s.executionScopeInits.contains triggerAsyncId = true
  · rw [if_pos hc] at h
    cases hm : mapGet s.traces triggerAsyncId with
    | none => rw [hm] at h; cases h
    | some parentTrace =>
      rw [hm] at h
      cases h
      exact ⟨_, rfl, rfl, rfl⟩
  · rw [if_neg hc] at h
    cases h
    exact ⟨_, rfl, rfl, rfl⟩

theorem asyncInit_of_not_recent (limit : Nat) (s : TraceState) (asyncId : Nat) (ty : String)
    (triggerAsyncId : Nat) (stack : List CallSite)
    (h : s.executionScopeInits.contains triggerAsyncId = false) :
    asyncInit limit s asyncId ty triggerAsyncId stack
      = some (asyncInitStore limit s asyncId triggerAsyncId
          (getCallSites limit 2 stack).frames) := by
  unfold asyncInit
  rw [if_neg (fun hc => by rw [h] at hc; cases hc)]

theorem step_storeBounded (limit : Nat) (s : TraceState) (e : Event) (s' : TraceState)
    (hb : storeBounded limit s) (h : step limit s e = some s') : storeBounded limit s' := by
  cases e with
  | scheduled id ty trigger stack =>
    obtain ⟨t, ht, _, _⟩ := asyncInit_shape limit s id ty trigger stack s' h
    intro k seq hk
    rw [ht, mapGet_mapSet] at hk
    split at hk
    · cases hk
      exact List.length_take_le limit t
    · exact hb k seq hk
  | dispatchEnter =>
    cases h
    intro k seq hk
    exact hb k seq hk
  | dispatchExit =>
    cases h
    intro k seq hk
    exact hb k seq hk
  | destroyed id =>
    cases h
    intro k seq hk
    rw [show (asyncDestroy s id).traces = mapDelete s.traces id from rfl,
      mapGet_mapDelete] at hk
    split at hk
    · cases hk
    · exact hb k seq hk

theorem run_storeBounded (limit : Nat) :
    ∀ (events : List Event) (s s' : TraceState), storeBounded limit s →
      run limit s events = some s' → storeBounded limit s' := by
  intro events
  induction events with
  | nil =>
    intro s s' hb hr
    cases hr
    exact hb
  | cons e es ih =>
    intro s s' hb hr
    unfold run at hr
    cases hs : step limit s e with
    | none => rw [hs] at hr; cases hr
    | some s1 =>
      rw [hs] at hr
      exact ih s1 s' (step_storeBounded limit s e s1 hb hs) hr

theorem run_contains_zero_false (limit : Nat) :
    ∀ (events : List Event) (s s' : TraceState), schedIdsNonzero events = true →
      s.executionScopeInits.contains 0 = false → run limit s events = some s' →
      s'.executionScopeInits.contains 0 = false := by
  intro events
  induction events with
  | nil =>
    intro s s' _ h0 hr
    cases hr
    exact h0
  | cons e es ih =>
    intro s s' hv h0 hr
    unfold run at hr
    cases hs : step limit s e with
    | none => rw [hs] at hr; cases hr
    | some s1 =>
      rw [hs] at hr
      have hves : schedIdsNonzero es = true := by
        cases e with
        | scheduled id ty trigger stack =>
          simp only [schedIdsNonzero, Bool.and_eq_true] at hv
          exact hv.2
        | dispatchEnter => simpa [schedIdsNonzero] using hv
        | dispatchExit => simpa [schedIdsNonzero] using hv
        | destroyed id => simpa [schedIdsNonzero] using hv
      apply ih s1 s' hves ?_ hr
      cases e with
      | scheduled id ty trigger stack =>
        have hid : id ≠ 0 := by
          simp [schedIdsNonzero] at hv
          exact hv.1
        obtain ⟨t, _, hinits, _⟩ := asyncInit_shape limit s id ty trigger stack s1 hs
        rw [hinits, setAdd_contains_of_ne _ _ _ hid]
        exact h0
      | dispatchEnter =>
        cases hs
        show (if s.executionScopeDepth == 0 then [] else s.executionScopeInits).contains 0
          = false
        split
        · rfl
        · exact h0
      | dispatchExit =>
        cases hs
        exact h0
      | destroyed id =>
        cases hs
        exact h0

theorem asyncInitStore_get_self (limit : Nat) (s : TraceState) (asyncId triggerAsyncId : Nat)
    (t : List CallSite) :
    mapGet (asyncInitStore limit s asyncId triggerAsyncId t).traces asyncId
      = some ((if triggerAsyncId != 0 then
          t ++ (mapGet s.traces triggerAsyncId).getD [] else t).take limit) := by
  show mapGet (mapSet s.traces asyncId _) asyncId = _
  rw [mapGet_mapSet]
  simp

/-! ## The claims -/

/-- C9: `getCallSites(skip)` raises the maximum-frame-depth setting by
exactly `skip` for the duration of the capture, drops the `skip`
innermost frames, restores the setting to its prior value afterwards,
and hence still returns up to `limit` useful frames. -/
theorem getCallSites_limit_restore_drop (limit skip : Nat) (stack : List CallSite) :
    (getCallSites limit skip stack).raisedLimit = limit + skip ∧
    (getCallSites limit skip stack).finalLimit = limit ∧
    (getCallSites limit skip stack).frames = (stack.drop skip).take limit ∧
    (getCallSites limit skip stack).frames.length ≤ limit := by
  refine ⟨rfl, rfl, getCallSites_frames limit skip stack, ?_⟩
  rw [getCallSites_frames]
  exact List.length_take_le limit _

/-- C10: the wrapper's WeakMap entry is keyed by the wrapper itself, so
while the wrapper is reachable no garbage collection can clear it:
`deref()` returns the wrapped value and the `WeakProxy` accessor never
takes its absent-value (`undefined`) branch on a live handle. -/
theorem weakref_deref_returns_value (v : CallSite) (r : WeakRefM CallSite)
    (h : gcReachable true (WeakRefM.make v) r) :
    r.deref = some v ∧ ∀ prop : CallSite → JSVal, weakProxyGet r prop = prop v := by
  have hd : r.deref = some v := by
    unfold gcReachable at h
    induction h with
    | refl => rfl
    | tail hab hbc ih =>
      rcases hbc with heq | ⟨hfalse, _⟩
      · rw [heq]; exact ih
      · simp at hfalse
  exact ⟨hd, fun prop => by simp [weakProxyGet, hd]⟩

/-- Witness for C10 at a concrete handle: no garbage-collection step has
happened, `deref` yields the wrapped call site, and the proxy forwards
its file-name accessor. -/
theorem weakref_deref_returns_value_witness :
    (WeakRefM.make csP0).deref = some csP0 ∧
      weakProxyGet (WeakRefM.make csP0) CallSite.getFileName = csP0.getFileName :=
  ⟨(weakref_deref_returns_value csP0 (WeakRefM.make csP0) Relation.ReflTransGen.refl).1,
   (weakref_deref_returns_value csP0 (WeakRefM.make csP0) Relation.ReflTransGen.refl).2
     CallSite.getFileName⟩

/-- C3: after any sequence of lifecycle events, every frame sequence in
the causal trace store has length at most the configured stack trace
limit. -/
theorem stored_length_le_limit (limit : Nat) (events : List Event) (s : TraceState)
    (hrun : run limit initialState events = some s) :
    ∀ id seq, mapGet s.traces id = some seq → seq.length ≤ limit :=
  run_storeBounded limit events initialState s
    (fun id seq h => by simp [initialState, mapGet] at h) hrun

/-- Witness for C3 on a concrete run: one scheduling event under limit
`1` stores a sequence of length `0 ≤ 1`. -/
theorem stored_length_le_limit_witness : ([] : List CallSite).length ≤ 1 :=
  stored_length_le_limit 1 [Event.scheduled 1 "t" 0 []] ⟨[1], 0, [(1, [])]⟩
    (by decide) 1 [] (by decide)

/-- C6 counterexample: two handles whose every accessor reports the
absent `undefined` sentinel (a reclaimed descriptor) are reported equal
by `equalCallSite`, because the source tests only for `null`; so an
absent field does not force the result to be `false`. -/
theorem equalCallSite_true_on_absent_fields :
    equalCallSite absentCS absentCS = true ∧ isAbsentVal absentCS.getFileName = true := by
  decide

/-- C6 (amended): `equal(a, b)` returns true iff none of `a`'s three
fields is `null` and the file name, line number and column number are
pairwise identical; a `null` field on either handle forces `false`, but
a field that carries the `undefined` absent sentinel on both handles
compares as identical and does not. -/
theorem equalCallSite_eq_iff (a b : CallSite) :
    equalCallSite a b = true ↔
      (a.getFileName ≠ JSVal.null ∧ a.getLineNumber ≠ JSVal.null ∧
       a.getColumnNumber ≠ JSVal.null ∧ a.getFileName = b.getFileName ∧
       a.getLineNumber = b.getLineNumber ∧ a.getColumnNumber = b.getColumnNumber) := by
  unfold equalCallSite
  by_cases h1 : a.getFileName = JSVal.null <;>
    by_cases h2 : a.getLineNumber = JSVal.null <;>
      by_cases h3 : a.getColumnNumber = JSVal.null <;>
        simp [h1, h2, h3, and_assoc]

/-- C7: a `destroyed(id)` event removes the store entry for `id`, makes
`compose(id)` return the empty sequence, and is a state-preserving no-op
when `id` has no store entry. -/
theorem destroyed_cleanup_noop (limit : Nat) (s : TraceState) (id : Nat) :
    step limit s (Event.destroyed id) = some (asyncDestroy s id) ∧
    mapGet (asyncDestroy s id).traces id = none ∧
    compose (asyncDestroy s id) id = [] ∧
    (mapGet s.traces id = none → asyncDestroy s id = s) := by
  refine ⟨rfl, ?_, ?_, ?_⟩
  · show mapGet (mapDelete s.traces id) id = none
    rw [mapGet_mapDelete]
    simp
  · show (mapGet (mapDelete s.traces id) id).getD [] = []
    rw [mapGet_mapDelete]
    simp
  · intro h
    show { s with traces := mapDelete s.traces id } = s
    rw [mapDelete_of_mapGet_none s.traces id h]

/-- Witness for C7 at a concrete state: destroying an untracked
identifier leaves the initial state unchanged. -/
theorem destroyed_cleanup_noop_witness :
    step 3 initialState (Event.destroyed 7) = some (asyncDestroy initialState 7) ∧
    mapGet (asyncDestroy initialState 7).traces 7 = none ∧
    compose (asyncDestroy initialState 7) 7 = [] ∧
    asyncDestroy initialState 7 = initialState :=
  ⟨(destroyed_cleanup_noop 3 initialState 7).1,
   (destroyed_cleanup_noop 3 initialState 7).2.1,
   (destroyed_cleanup_noop 3 initialState 7).2.2.1,
   (destroyed_cleanup_noop 3 initialState 7).2.2.2 (by decide)⟩

/-- C8: under matched enter/exit pairs (depth never negative), the
recent-inits set is cleared exactly on an `enterScope` that moves the
depth from `0` to `1`; every other step only preserves or grows it. -/
theorem recent_inits_clear_iff (limit : Nat) (s : TraceState) (e : Event) (s' : TraceState)
    (hdepth : 0 ≤ s.executionScopeDepth) (hstep : step limit s e = some s') :
    ((e = Event.dispatchEnter ∧ s.executionScopeDepth = 0) →
        s'.executionScopeInits = [] ∧ s'.executionScopeDepth = 1) ∧
    (¬(e = Event.dispatchEnter ∧ s.executionScopeDepth = 0) →
        ∀ x ∈ s.executionScopeInits, x ∈ s'.executionScopeInits) := by
  constructor
  · rintro ⟨rfl, hd⟩
    cases hstep
    constructor
    · show (if s.executionScopeDepth == 0 then [] else s.executionScopeInits) = []
      simp [hd]
    · show s.executionScopeDepth + 1 = 1
      rw [hd]
      decide
  · intro hne x hx
    cases e with
    | scheduled id ty trigger stack =>
      obtain ⟨t, _, hinits, _⟩ := asyncInit_shape limit s id ty trigger stack s' hstep
      rw [hinits]
      exact setAdd_mem _ x id hx
    | dispatchEnter =>
      have hd : ¬s.executionScopeDepth = 0 := fun h => hne ⟨rfl, h⟩
      cases hstep
      show x ∈ (if s.executionScopeDepth == 0 then [] else s.executionScopeInits)
      have hb : (s.executionScopeDepth == 0) = false := by simpa using hd
      rw [hb]
      exact hx
    | dispatchExit =>
      cases hstep
      exact hx
    | destroyed id =>
      cases hstep
      exact hx

/-- Witness for C8 at a concrete state: an outermost `dispatchEnter`
over a nonempty recent-inits set clears it and sets the depth to `1`. -/
theorem recent_inits_clear_iff_witness :
    (asyncBefore ⟨[5], 0, []⟩).executionScopeInits = [] ∧
      (asyncBefore ⟨[5], 0, []⟩).executionScopeDepth = 1 :=
  (recent_inits_clear_iff 4 ⟨[5], 0, []⟩ Event.dispatchEnter (asyncBefore ⟨[5], 0, []⟩)
    (by decide) rfl).1 ⟨rfl, rfl⟩

/-- C1 counterexample: the source's dedup loop does not stop at the
first mismatching parent frame. Operation `1` is a recent init with
stored trace `[csP0, csP1]`; the capture for operation `2` ends in a
frame equal to `csP0` but not to the parent's last frame `csP1`. The
claimed walk stops immediately and would store
`[csT0, csT1, csT2, csP0, csP1]`, while the engine also compares the
earlier parent frame `csP0`, pops `csT2`, and stores
`[csT0, csT1, csP0, csP1]`. -/
theorem dedup_walk_not_stop_on_mismatch :
    (step 10 c1State (Event.scheduled 2 "PROMISE" 1 c1Stack)).bind
        (fun s => mapGet s.traces 2) = some [csT0, csT1, csP0, csP1] ∧
    (specDedupWalk [csP0, csP1] (getCallSites 10 2 c1Stack).frames ++ [csP0, csP1]).take 10
        = [csT0, csT1, csT2, csP0, csP1] ∧
    ([csT0, csT1, csP0, csP1] : List CallSite) ≠ [csT0, csT1, csT2, csP0, csP1] := by
  decide

/-- C1 (amended): when `wasRecentlyInit(triggerId)` holds, the dedup
walk visits *every* frame of the trigger's stored sequence from the end
toward the start — it does not stop at the first mismatch — removing the
captured sequence's last frame whenever the visited parent frame equals
it and more than one captured frame remains; it never removes the last
remaining captured frame. -/
theorem dedup_walk_characterization (parentTrace trace : List CallSite) :
    asyncInitDedup parentTrace trace = dedupBackward parentTrace.reverse trace ∧
    (trace ≠ [] → asyncInitDedup parentTrace trace ≠ []) := by
  constructor
  · have h := dedupLoop_eq_dedupBackward parentTrace parentTrace.length (le_refl _) trace
    rwa [List.take_length] at h
  · exact fun h => dedupLoop_ne_nil parentTrace parentTrace.length trace h

/-- Witness for C1's amended walk at a concrete input: with a nonempty
capture the walk agrees with the backward fold and leaves the capture
nonempty. -/
theorem dedup_walk_characterization_witness :
    asyncInitDedup [csP0, csP1] [csT0, csT1, csT2]
        = dedupBackward ([csP0, csP1] : List CallSite).reverse [csT0, csT1, csT2] ∧
    asyncInitDedup [csP0, csP1] [csT0, csT1, csT2] ≠ [] :=
  ⟨(dedup_walk_characterization [csP0, csP1] [csT0, csT1, csT2]).1,
   (dedup_walk_characterization [csP0, csP1] [csT0, csT1, csT2]).2 (by decide)⟩

/-- C2 counterexample: scheduling `2` with the destroyed trigger `1`
while `1` is still in the recent-inits set makes the engine read
`.length` of a missing parent trace and fail (a `TypeError`, modelled by
`none`), so the stitching algorithm does not complete without failure in
this case. -/
theorem missing_trigger_in_recent_inits_crashes :
    run 10 initialState c2Events = none := by decide

/-- C2 (amended): a `triggerId` with no stored sequence is treated as an
empty frame sequence and the stitching algorithm completes — provided
the trigger is *not* in the recent-inits set; when such a trigger is
still in the recent-inits set the algorithm instead fails. -/
theorem missing_trigger_outside_recent_inits_safe (limit : Nat) (s : TraceState)
    (id : Nat) (ty : String) (trigger : Nat) (stack : List CallSite)
    (hnone : mapGet s.traces trigger = none) :
    (s.executionScopeInits.contains trigger = false →
      ∃ s', step limit s (Event.scheduled id ty trigger stack) = some s' ∧
        mapGet s'.traces id = some ((stack.drop 2).take limit)) ∧
    (s.executionScopeInits.contains trigger = true →
      step limit s (Event.scheduled id ty trigger stack) = none) := by
  constructor
  · intro hc
    refine ⟨_, asyncInit_of_not_recent limit s id ty trigger stack hc, ?_⟩
    rw [asyncInitStore_get_self, hnone]
    have hframes := getCallSites_frames limit 2 stack
    by_cases ht : trigger != 0 <;>
      simp [ht, hframes, List.take_take]
  · intro hc
    show asyncInit limit s id ty trigger stack = none
    unfold asyncInit
    rw [if_pos hc, hnone]

/-- Witness for C2's amended claim: scheduling against an untracked
trigger that is not a recent init completes and stores exactly the
captured frames. -/
theorem missing_trigger_outside_recent_inits_safe_witness :
    ∃ s', step 5 initialState (Event.scheduled 1 "TIMER" 9 [csD, csD, csT0]) = some s' ∧
      mapGet s'.traces 1 = some (([csD, csD, csT0].drop 2).take 5) :=
  (missing_trigger_outside_recent_inits_safe 5 initialState 1 "TIMER" 9 [csD, csD, csT0]
    (by decide)).1 (by decide)

/-- C4: when the trigger `a` has a stored sequence `sa` and is no longer
a recent init, scheduling `b` with trigger `a` stores the freshly
captured sequence for `b` concatenated with `sa`, truncated to the depth
limit. -/
theorem ancestry_carry_forward (limit : Nat) (s : TraceState) (a b : Nat) (ty : String)
    (stackB sa : List CallSite) (ha0 : a ≠ 0)
    (hrec : s.executionScopeInits.contains a = false)
    (hsa : mapGet s.traces a = some sa) :
    ∃ s', step limit s (Event.scheduled b ty a stackB) = some s' ∧
      mapGet s'.traces b = some (((stackB.drop 2).take limit ++ sa).take limit) := by
  refine ⟨_, asyncInit_of_not_recent limit s b ty a stackB hrec, ?_⟩
  rw [asyncInitStore_get_self]
  have ht : (a != 0) = true := by simpa using ha0
  simp [ht, hsa, getCallSites_frames]

/-- Witness for C4 at a concrete state: operation `1` stores `[csP0]`,
is not a recent init, and scheduling `2` with trigger `1` appends
`[csP0]` to the captured frames. -/
theorem ancestry_carry_forward_witness :
    ∃ s', step 10 c4State (Event.scheduled 2 "TICK" 1 [csD, csD, csT0]) = some s' ∧
      mapGet s'.traces 2
        = some ((([csD, csD, csT0].drop 2).take 10 ++ [csP0]).take 10) :=
  ancestry_carry_forward 10 c4State 1 2 "TICK" [csD, csD, csT0] [csP0]
    (by decide) (by decide) (by decide)

/-- C5: in any reachable state of a well-formed event sequence (no
operation uses the reserved root identifier `0`), a `scheduled` event
with the reserved root trigger stores exactly the freshly captured
sequence — no trigger sequence is concatenated — truncated to the depth
limit. -/
theorem root_trigger_no_concat (limit : Nat) (events : List Event) (s : TraceState)
    (id : Nat) (ty : String) (stack : List CallSite)
    (hvalid : schedIdsNonzero events = true)
    (hrun : run limit initialState events = some s) :
    ∃ s', step limit s (Event.scheduled id ty 0 stack) = some s' ∧
      mapGet s'.traces id = some ((stack.drop 2).take limit) ∧
      (stack.drop 2).take limit = (getCallSites limit 2 stack).frames := by
  have h0 : s.executionScopeInits.contains 0 = false :=
    run_contains_zero_false limit events initialState s hvalid (by decide) hrun
  refine ⟨_, asyncInit_of_not_recent limit s id ty 0 stack h0, ?_,
    (getCallSites_frames limit 2 stack).symm⟩
  rw [asyncInitStore_get_self]
  simp [getCallSites_frames, List.take_take]

/-- Witness for C5 on a concrete run: a root-triggered scheduling from
the initial state stores exactly the captured frames. -/
theorem root_trigger_no_concat_witness :
    ∃ s', step 5 initialState (Event.scheduled 3 "TIMER" 0 [csD, csD, csT0]) = some s' ∧
      mapGet s'.traces 3 = some (([csD, csD, csT0].drop 2).take 5) ∧
      ([csD, csD, csT0].drop 2).take 5 = (getCallSites 5 2 [csD, csD, csT0]).frames :=
  root_trigger_no_concat 5 [] initialState 3 "TIMER" [csD, csD, csT0] (by decide) (by decide)
